import Mathlib

/-!
Formal model of the object expiry and LRU engine of
src/bin/varnishd/cache/cache_expire.c.

Time values (C doubles) are modelled as rationals.  The binary heap is
modelled as a list of objcore identifiers kept in nondecreasing order of
timer_when, whose head plays the role of binheap_root; timer_idx is
modelled by membership in that list (timer_idx == BINHEAP_NOIDX iff the
objcore identifier is not in the list).  The struct lock operations are
modelled by explicit state passing (every C critical section becomes an
atomic state transformation); try-lock outcomes are oracle parameters.
C asserts (AZ / AN / assert / WRONG) are modelled by returning none.
-/

/-- Object timer fields (struct exp of an object): the core only reads
t_origin, ttl, grace, keep. -/
structure ObjExp where
  ttl : ℚ
  grace : ℚ
  keep : ℚ
  t_origin : ℚ
deriving DecidableEq, Repr

/-- Objcore attributes used by the expiry core: the OC_F_BUSY, OC_F_OFFLRU,
OC_F_DYING, OC_F_INSERT, OC_F_MOVE flag bits, the reference count, the heap
wake time and the last LRU update time.  Heap membership (timer_idx) is kept
in the system state. -/
structure ObjCore where
  busy : Bool
  offlru : Bool
  dying : Bool
  insert : Bool
  move : Bool
  refcnt : Nat
  timer_when : ℚ
  last_lru : ℚ
deriving DecidableEq, Repr

/-- One LRU set (struct lru): the DONTMOVE flag, the recency list
(head = least recently used) and the objcore counter. -/
structure LruState where
  dontmove : Bool
  list : List Nat
  n_objcore : Nat
deriving DecidableEq, Repr

/-- Global state: the objcore store, the object timer store, the LRU set,
the actor inbox (mailbox), the heap (list in nondecreasing timer_when
order, head = root), the stats counters, and two ghost counters recording
how many references the actor has acquired (acq, at INSERT mails) and
released (rel, at exp_inbox DYING processing or exp_expire firing) per
objcore. -/
structure SysState where
  ocs : Nat → ObjCore
  exps : Nat → ObjExp
  lru : LruState
  inbox : List Nat
  heap : List Nat
  n_expired : Nat
  n_lru_moved : Nat
  n_lru_nuked : Nat
  acq : Nat → Nat
  rel : Nat → Nat

/-- Pointwise update of a store. -/
def updFn {α : Type} (f : Nat → α) (i : Nat) (v : α) : Nat → α :=
  fun j => if j = i then v else f j

/-- Source exp_when: when = t_origin + ttl + grace + keep (never NaN over ℚ). -/
def exp_when (e : ObjExp) : ℚ :=
  e.t_origin + e.ttl + e.grace + e.keep

/-- Source exp_mail_it: requires OC_F_OFFLRU (AN assert); a DYING objcore is
inserted at the inbox head, any other at the tail. -/
def exp_mail_it (s : SysState) (id : Nat) : Option SysState :=
  let oc := s.ocs id
  if oc.offlru then
    some { s with inbox := if oc.dying then id :: s.inbox else s.inbox ++ [id] }
  else
    none

/-- Source EXP_Inject: asserts OFFLRU clear, increments the LRU objcore
count, sets OFFLRU and INSERT, records the precomputed wake time and mails
the objcore.  The caller's reference is inherited by the actor (ghost acq). -/
def EXP_Inject (s : SysState) (id : Nat) (w : ℚ) : Option SysState :=
  let oc := s.ocs id
  if oc.offlru then none
  else
    exp_mail_it
      { s with
        lru := { s.lru with n_objcore := s.lru.n_objcore + 1 },
        ocs := updFn s.ocs id { oc with offlru := true, insert := true, timer_when := w },
        acq := updFn s.acq id (s.acq id + 1) } id

/-- Source EXP_Insert: asserts t_origin nonzero, takes a fresh reference
(HSH_Ref), records last_lru, asserts OFFLRU clear, increments the LRU
count, sets OFFLRU and INSERT, computes timer_when := exp_when and mails. -/
def EXP_Insert (s : SysState) (id : Nat) (now : ℚ) : Option SysState :=
  let oc := s.ocs id
  if (s.exps id).t_origin = 0 then none
  else if oc.offlru then none
  else
    exp_mail_it
      { s with
        lru := { s.lru with n_objcore := s.lru.n_objcore + 1 },
        ocs := updFn s.ocs id
          { oc with refcnt := oc.refcnt + 1, last_lru := now,
                    offlru := true, insert := true,
                    timer_when := exp_when (s.exps id) },
        acq := updFn s.acq id (s.acq id + 1) } id

/-- VTAILQ_REMOVE followed by VTAILQ_INSERT_TAIL. -/
def moveToTail (l : List Nat) (id : Nat) : List Nat :=
  l.erase id ++ [id]

/-- Source EXP_Touch: returns 0 if the LRU has LRU_F_DONTMOVE or the
try-lock on the LRU mutex fails (lockok is the try-lock oracle); otherwise
moves the objcore to the LRU tail when OFFLRU is clear (counting
n_lru_moved) and returns 1. -/
def EXP_Touch (s : SysState) (id : Nat) (lockok : Bool) : SysState × Int :=
  if s.lru.dontmove then (s, 0)
  else if lockok = false then (s, 0)
  else
    let oc := s.ocs id
    if oc.offlru = false then
      ({ s with
          lru := { s.lru with list := moveToTail s.lru.list id },
          n_lru_moved := s.n_lru_moved + 1 }, 1)
    else (s, 1)

/-- Source EXP_Rearm: recompute when := exp_when(o); if it equals
timer_when, return with no change.  Otherwise set DYING if when is
negative, else MOVE; if OFFLRU is already set do not mail again, else set
OFFLRU, unlink from the LRU and mail. -/
def EXP_Rearm (s : SysState) (id : Nat) : Option SysState :=
  let oc := s.ocs id
  let w := exp_when (s.exps id)
  if oc.timer_when = w then some s
  else
    let oc1 := if w < 0 then { oc with dying := true } else { oc with move := true }
    if oc1.offlru then
      some { s with ocs := updFn s.ocs id oc1 }
    else
      exp_mail_it
        { s with
          ocs := updFn s.ocs id { oc1 with offlru := true },
          lru := { s.lru with list := s.lru.list.erase id } } id

/-- Candidate filter of the EXP_NukeOne scan: not BUSY, refcnt exactly 1,
and the object-head try-lock (oracle ohlock) succeeds. -/
def nukeable (s : SysState) (ohlock : Nat → Bool) (id : Nat) : Bool :=
  !(s.ocs id).busy && decide ((s.ocs id).refcnt = 1) && ohlock id

/-- The VTAILQ_FOREACH scan of EXP_NukeOne: asserts no scanned objcore is
DYING (none on violation); skips BUSY objcores, objcores with refcnt > 1,
objcores whose object-head try-lock fails, and objcores whose refcnt is not
1 after the lock; returns the first candidate. -/
def nuke_candidate (s : SysState) (ohlock : Nat → Bool) : List Nat → Option (Option Nat)
  | [] => some none
  | id :: rest =>
    let oc := s.ocs id
    if oc.dying then none
    else if oc.busy then nuke_candidate s ohlock rest
    else if 1 < oc.refcnt then nuke_candidate s ohlock rest
    else if ohlock id = false then nuke_candidate s ohlock rest
    else if oc.refcnt = 1 then some (some id)
    else nuke_candidate s ohlock rest

/-- Source EXP_NukeOne: scan the LRU head to tail for the first candidate;
if none, return -1 with the state unchanged.  Otherwise set DYING and
OFFLRU, increment refcnt (donating a reference to the mail), count
n_lru_nuked, unlink from the LRU, mail the objcore, release the caller's
reference (HSH_DerefObjCore) and return 1. -/
def EXP_NukeOne (s : SysState) (ohlock : Nat → Bool) : Option (SysState × Int) :=
  match nuke_candidate s ohlock s.lru.list with
  | none => none
  | some none => some (s, -1)
  | some (some id) =>
    let oc := s.ocs id
    let s1 : SysState :=
      { s with
        ocs := updFn s.ocs id
          { oc with dying := true, offlru := true, refcnt := oc.refcnt + 1 },
        n_lru_nuked := s.n_lru_nuked + 1,
        lru := { s.lru with list := s.lru.list.erase id } }
    match exp_mail_it s1 id with
    | none => none
    | some s2 =>
      let oc2 := s2.ocs id
      some ({ s2 with ocs := updFn s2.ocs id { oc2 with refcnt := oc2.refcnt - 1 } }, 1)

/-- binheap_insert for the sorted-list model: insert before the first
element with a strictly larger key (ties broken by insertion order, as in
the source comparator which uses strict less-than). -/
def heap_add (ocs : Nat → ObjCore) (id : Nat) : List Nat → List Nat
  | [] => [id]
  | x :: xs =>
    if (ocs id).timer_when < (ocs x).timer_when then id :: x :: xs
    else x :: heap_add ocs id xs

/-- Source exp_inbox: assert OFFLRU (the mail discipline), snapshot the
flags, clear INSERT, MOVE and OFFLRU, set last_lru := now, and link to the
LRU tail unless the snapshot had DYING.  Then: DYING => assert heap
presence, delete from the heap and drop the actor's reference (ghost rel);
otherwise recompute timer_when when MOVE was set, then heap-insert on
INSERT (asserting absence), heap-reorder on MOVE (asserting presence), and
abort (WRONG) when none of the three action flags was set. -/
def exp_inbox (s : SysState) (id : Nat) (now : ℚ) : Option SysState :=
  let oc := s.ocs id
  if oc.offlru = false then none
  else
    let oc1 : ObjCore :=
      { oc with insert := false, move := false, offlru := false, last_lru := now }
    let s1 : SysState :=
      { s with
        ocs := updFn s.ocs id oc1,
        lru := if oc.dying then s.lru
               else { s.lru with list := s.lru.list ++ [id] } }
    if oc.dying then
      if id ∈ s1.heap then
        some { s1 with
                heap := s1.heap.erase id,
                ocs := updFn s1.ocs id { oc1 with refcnt := oc1.refcnt - 1 },
                rel := updFn s1.rel id (s1.rel id + 1) }
      else none
    else
      let s2 : SysState :=
        if oc.move then
          { s1 with
            ocs := updFn s1.ocs id { oc1 with timer_when := exp_when (s1.exps id) } }
        else s1
      if oc.insert then
        if id ∈ s2.heap then none
        else some { s2 with heap := heap_add s2.ocs id s2.heap }
      else if oc.move then
        if id ∈ s2.heap then
          some { s2 with heap := heap_add s2.ocs id (s2.heap.erase id) }
        else none
      else none

/-- Source exp_expire: peek the heap root.  Empty heap: nap for 355/113.
Root not yet due: sleep until its timer_when.  Due but BUSY: retry in 10 ms.
Otherwise charge n_expired, set DYING; if OFFLRU was already set another
agent owns the objcore, so yield for 1 ms; else set OFFLRU, unlink from the
LRU, delete the root from the heap, drop the actor's reference (ghost rel)
and return 0. -/
def exp_expire (s : SysState) (now : ℚ) : SysState × ℚ :=
  match s.heap with
  | [] => (s, now + 355/113)
  | id :: rest =>
    let oc := s.ocs id
    if now < oc.timer_when then (s, oc.timer_when)
    else if oc.busy then (s, now + 1/100)
    else
      let s1 : SysState := { s with n_expired := s.n_expired + 1 }
      if oc.offlru then
        ({ s1 with ocs := updFn s1.ocs id { oc with dying := true } }, now + 1/1000)
      else
        ({ s1 with
            ocs :=
              updFn s1.ocs id { oc with dying := true, offlru := true, refcnt := oc.refcnt - 1 },
            lru := { s1.lru with list := s1.lru.list.erase id },
            heap := rest,
            rel := updFn s1.rel id (s1.rel id + 1) }, 0)

/-- One iteration of the exp_thread loop, at wall-clock time now: if the
inbox is nonempty, detach its first element and run exp_inbox on it;
otherwise run exp_expire (the condition wait only affects timing). -/
def exp_thread_step (s : SysState) (now : ℚ) : Option SysState :=
  match s.inbox with
  | [] => some (exp_expire s now).1
  | id :: rest => exp_inbox { s with inbox := rest } id now

/-- External events driving the core: the five public operations, an
external mutation of an object's timers (the trigger for EXP_Rearm), and
one iteration of the expiry actor. -/
inductive Op where
  | opInject (id : Nat) (w : ℚ)
  | opInsert (id : Nat) (now : ℚ)
  | opTouch (id : Nat) (lockok : Bool)
  | opRearm (id : Nat)
  | opSetExp (id : Nat) (e : ObjExp)
  | opNuke (ohlock : Nat → Bool)
  | opActor (now : ℚ)

/-- Effect of one event on the state (none = a C assert fired). -/
def applyOp : Op → SysState → Option SysState
  | .opInject id w, s => EXP_Inject s id w
  | .opInsert id now, s => EXP_Insert s id now
  | .opTouch id lockok, s => some (EXP_Touch s id lockok).1
  | .opRearm id, s => EXP_Rearm s id
  | .opSetExp id e, s =>
      some { s with exps := updFn s.exps id e }
  | .opNuke ohlock, s => (EXP_NukeOne s ohlock).map Prod.fst
  | .opActor now, s => exp_thread_step s now

/-- Caller contract: Inject and Insert are called only for an objcore newly
entering the cache (not tracked by the LRU, the mailbox or the heap, and
never inserted before); the other operations are unrestricted. -/
def OkB : Op → SysState → Bool
  | .opInject id _, s =>
      !s.lru.list.contains id && !s.inbox.contains id && !s.heap.contains id
        && decide (s.acq id = 0)
  | .opInsert id _, s =>
      !s.lru.list.contains id && !s.inbox.contains id && !s.heap.contains id
        && decide (s.acq id = 0)
  | _, _ => true

/-- One contract-respecting step. -/
def stepOk (s : SysState) (op : Op) : Option SysState :=
  if OkB op s then applyOp op s else none

/-- Run a sequence of contract-respecting events. -/
def runFrom (s : SysState) : List Op → Option SysState
  | [] => some s
  | op :: rest =>
    match stepOk s op with
    | none => none
    | some s1 => runFrom s1 rest

/-- A blank objcore: no flags, one (caller-held) reference. -/
def oc0 : ObjCore :=
  { busy := false, offlru := false, dying := false, insert := false,
    move := false, refcnt := 1, timer_when := 0, last_lru := 0 }

/-- EXP_Clr values for the timers. -/
def exp0 : ObjExp :=
  { ttl := -1, grace := 0, keep := 0, t_origin := 0 }

/-- Startup state: empty LRU, inbox and heap. -/
def initState : SysState :=
  { ocs := fun _ => oc0, exps := fun _ => exp0,
    lru := { dontmove := false, list := [], n_objcore := 0 },
    inbox := [], heap := [],
    n_expired := 0, n_lru_moved := 0, n_lru_nuked := 0,
    acq := fun _ => 0, rel := fun _ => 0 }

/-- Concrete objcore due at time 10, neither busy nor off the LRU. -/
def wOcDue : ObjCore := { oc0 with timer_when := 10 }

/-- Concrete objcore due at time 10, already claimed by another agent. -/
def wOcDueOff : ObjCore := { oc0 with timer_when := 10, offlru := true }

/-- State whose heap root is wOcDue (linked on the LRU). -/
def wStateDue : SysState :=
  { initState with heap := [0], ocs := updFn initState.ocs 0 wOcDue,
                   lru := { initState.lru with list := [0] } }

/-- State whose heap root is wOcDueOff. -/
def wStateDueOff : SysState :=
  { initState with heap := [0], ocs := updFn initState.ocs 0 wOcDueOff }

/-- State holding a DYING objcore with OFFLRU set that is not in the heap:
a Rearm with negative wake time hit an objcore whose INSERT mail had not
been drained yet, for instance. -/
def c2state : SysState :=
  { initState with ocs := updFn initState.ocs 0 { oc0 with offlru := true, dying := true } }

/-- State holding a DYING, OFFLRU objcore that is heap-resident, as left by
a drained NukeOne or Rearm kill mail. -/
def c2wit : SysState :=
  { initState with
    heap := [0],
    ocs := updFn initState.ocs 0 { oc0 with offlru := true, dying := true } }

/-- State for the NukeOne witness: LRU holds objcore 1 (refcnt 2, not
evictable) ahead of objcore 0 (refcnt 1, evictable). -/
def c4state : SysState :=
  { initState with
    lru := { initState.lru with list := [1, 0] },
    ocs := updFn initState.ocs 1 { oc0 with refcnt := 2 } }

/-- State for the mail-priority witness: objcore 0 is DYING and OFFLRU,
objcore 1 is OFFLRU with an INSERT mail pending, and the inbox already
holds the non-dying objcore 1. -/
def c7state : SysState :=
  { initState with
    inbox := [1],
    ocs := updFn (updFn initState.ocs 0 { oc0 with offlru := true, dying := true })
      1 { oc0 with offlru := true, insert := true } }

/-- Timers making exp_when nonnegative and distinct from a pending wake. -/
def c8exp : ObjExp := { ttl := 10, grace := 0, keep := 0, t_origin := 100 }

/-- Interleaving refuting invariant 3: set timers, inject objcore 0 (INSERT
mail pending), then rearm it before the actor drains the mail. -/
def c8ops : List Op := [Op.opSetExp 0 c8exp, Op.opInject 0 5, Op.opRearm 0]

/-- State reached after the first two events of c8ops. -/
def c8mid : SysState :=
  { initState with
    exps := updFn initState.exps 0 c8exp,
    lru := { initState.lru with n_objcore := 1 },
    ocs := updFn initState.ocs 0 { oc0 with offlru := true, insert := true, timer_when := 5 },
    acq := updFn initState.acq 0 1,
    inbox := [0] }

/-- State for the C8 witness: one freshly injected objcore in the mailbox. -/
def c8wstate : SysState := (runFrom initState [Op.opInject 0 5]).getD initState

/-- A full lifecycle: inject objcore 0 due at 5, drain the INSERT mail at
time 1, then fire the expiry at time 10. -/
def c9ops : List Op := [Op.opInject 0 5, Op.opActor 1, Op.opActor 10]

/-- State at the end of c9ops. -/
def c9state : SysState := (runFrom initState c9ops).getD initState

/-- Mailbox residency invariant that actually holds: every objcore in the
inbox has OFFLRU set and at least one of INSERT, MOVE, DYING set. -/
def MailboxInv (s : SysState) : Prop :=
  ∀ id ∈ s.inbox, (s.ocs id).offlru = true ∧
    ((s.ocs id).insert = true ∨ (s.ocs id).move = true ∨ (s.ocs id).dying = true)

/-- References currently owed to the actor on behalf of an objcore: one for
a pending INSERT mail, one for heap residency. -/
def refBal (s : SysState) (id : Nat) : Nat :=
  (if id ∈ s.inbox ∧ (s.ocs id).insert = true then 1 else 0)
    + (if id ∈ s.heap then 1 else 0)

/-- Inductive invariant of the transition system. -/
structure SysInv (s : SysState) : Prop where
  mbox : MailboxInv s
  inboxNodup : s.inbox.Nodup
  disj : ∀ id ∈ s.inbox, id ∉ s.lru.list
  lruNodup : s.lru.list.Nodup
  heapNodup : s.heap.Nodup
  insNotHeap : ∀ id, (s.ocs id).insert = true → id ∉ s.heap
  insInbox : ∀ id, (s.ocs id).insert = true → id ∈ s.inbox
  bal : ∀ id, s.acq id = s.rel id + refBal s id
  acqLe : ∀ id, s.acq id ≤ 1
  offHeapInbox : ∀ id ∈ s.heap, (s.ocs id).offlru = true → id ∈ s.inbox

theorem updFn_same {α : Type} (f : Nat → α) (i : Nat) (v : α) : updFn f i v i = v := by
  simp [updFn]

theorem updFn_other {α : Type} (f : Nat → α) (i j : Nat) (v : α) (h : j ≠ i) :
    updFn f i v j = f j := by
  simp [updFn, h]

/-- Claim C1: the actor never fires an expiry too early.  Whenever
exp_expire charges n_expired at observed time now (which it does exactly
when it proceeds against a due, non-busy root), the root's timer_when is at
most now; and when the root's timer_when exceeds now the function returns
timer_when leaving the state untouched. -/
theorem C1_monotone_expiry (s : SysState) (now : ℚ) :
    ((exp_expire s now).1.n_expired ≠ s.n_expired →
      ∃ id rest, s.heap = id :: rest ∧ (s.ocs id).timer_when ≤ now) ∧
    (∀ id rest, s.heap = id :: rest → now < (s.ocs id).timer_when →
      exp_expire s now = (s, (s.ocs id).timer_when)) := by
  constructor
  · intro hne
    cases hh : s.heap with
    | nil => simp [exp_expire, hh] at hne
    | cons id rest =>
      refine ⟨id, rest, rfl, ?_⟩
      by_contra hlt
      push_neg at hlt
      simp [exp_expire, hh, hlt] at hne
  · intro id rest hh hlt
    simp [exp_expire, hh, hlt]

/-- Witness for C1 at a concrete state: the root is due at 10, observed
time is 5, so exp_expire returns the root's wake time with no change. -/
theorem C1_witness :
    wStateDue.heap = 0 :: [] ∧ (5:ℚ) < (wStateDue.ocs 0).timer_when ∧
    exp_expire wStateDue 5 = (wStateDue, (wStateDue.ocs 0).timer_when) :=
  ⟨rfl, by decide, (C1_monotone_expiry wStateDue 5).2 0 [] rfl (by decide)⟩

/-- Claim C3: the return value of exp_expire, in every case: empty heap
gives now + 355/113; a not-yet-due root gives its timer_when; a due BUSY
root gives now + 0.01; a due non-busy root already claimed (OFFLRU) gives
now + 0.001; and a successfully expired root gives 0. -/
theorem C3_expire_returns (s : SysState) (now : ℚ) :
    (s.heap = [] → exp_expire s now = (s, now + 355/113)) ∧
    (∀ id rest, s.heap = id :: rest →
      ((now < (s.ocs id).timer_when → exp_expire s now = (s, (s.ocs id).timer_when)) ∧
       ((s.ocs id).timer_when ≤ now → (s.ocs id).busy = true →
         exp_expire s now = (s, now + 1/100)) ∧
       ((s.ocs id).timer_when ≤ now → (s.ocs id).busy = false →
         (s.ocs id).offlru = true → (exp_expire s now).2 = now + 1/1000) ∧
       ((s.ocs id).timer_when ≤ now → (s.ocs id).busy = false →
         (s.ocs id).offlru = false → (exp_expire s now).2 = 0))) := by
  constructor
  · intro hh
    simp [exp_expire, hh]
  · intro id rest hh
    refine ⟨fun hlt => by simp [exp_expire, hh, hlt], ?_, ?_, ?_⟩
    · intro hle hb
      simp [exp_expire, hh, not_lt.mpr hle, hb]
    · intro hle hb ho
      simp [exp_expire, hh, not_lt.mpr hle, hb, ho]
    · intro hle hb ho
      simp [exp_expire, hh, not_lt.mpr hle, hb, ho]

/-- Witness for C3 at concrete states: the empty heap case and the claimed
(OFFLRU) case at time 20. -/
theorem C3_witness :
    exp_expire initState 7 = (initState, 7 + 355/113) ∧
    (wStateDueOff.heap = 0 :: [] ∧ (wStateDueOff.ocs 0).timer_when ≤ 20 ∧
      (exp_expire wStateDueOff 20).2 = 20 + 1/1000) :=
  ⟨(C3_expire_returns initState 7).1 rfl,
   rfl, by decide,
   (((C3_expire_returns wStateDueOff 20).2 0 [] rfl).2.2.1 (by decide) (by decide) (by decide))⟩

/-- Claim C10: exp_expire charges n_expired before checking whether the
root was already claimed; on a due, non-busy root with OFFLRU set it still
increments n_expired and returns now + 0.001 leaving the heap unchanged,
and a second iteration in the same situation charges n_expired again. -/
theorem C10_expired_overcount (s : SysState) (now : ℚ) (id : Nat) (rest : List Nat)
    (hh : s.heap = id :: rest) (hle : (s.ocs id).timer_when ≤ now)
    (hb : (s.ocs id).busy = false) (ho : (s.ocs id).offlru = true) :
    (exp_expire s now).1.n_expired = s.n_expired + 1 ∧
    (exp_expire s now).1.heap = s.heap ∧
    (exp_expire s now).2 = now + 1/1000 ∧
    (exp_expire (exp_expire s now).1 now).1.n_expired = s.n_expired + 2 := by
  have hstep : exp_expire s now =
      ({ s with n_expired := s.n_expired + 1,
                ocs := updFn s.ocs id { s.ocs id with dying := true } }, now + 1/1000) := by
    simp [exp_expire, hh, not_lt.mpr hle, hb, ho]
  refine ⟨by rw [hstep], by rw [hstep, hh], by rw [hstep], ?_⟩
  rw [hstep]
  simp [exp_expire, hh, updFn_same, not_lt.mpr hle, hb, ho]

/-- Witness for C10 at a concrete state: a root due at 10, observed at 20,
already OFFLRU. -/
theorem C10_witness :
    wStateDueOff.heap = 0 :: [] ∧ (wStateDueOff.ocs 0).timer_when ≤ 20 ∧
    (wStateDueOff.ocs 0).busy = false ∧ (wStateDueOff.ocs 0).offlru = true ∧
    ((exp_expire wStateDueOff 20).1.n_expired = wStateDueOff.n_expired + 1 ∧
     (exp_expire wStateDueOff 20).1.heap = wStateDueOff.heap ∧
     (exp_expire wStateDueOff 20).2 = 20 + 1/1000 ∧
     (exp_expire (exp_expire wStateDueOff 20).1 20).1.n_expired = wStateDueOff.n_expired + 2) :=
  ⟨rfl, by decide, by decide, by decide,
   C10_expired_overcount wStateDueOff 20 0 [] rfl (by decide) (by decide) (by decide)⟩

theorem updFn_updFn {α : Type} (f : Nat → α) (i : Nat) (v w : α) :
    updFn (updFn f i v) i w = updFn f i w := by
  funext j
  by_cases h : j = i <;> simp [updFn, h]

/-- Claim C5: EXP_Rearm recomputes when := exp_when(object); if it equals
timer_when nothing changes; otherwise it sets DYING when when is negative
and MOVE otherwise, and mails the objcore exactly when OFFLRU was not
already set (unlinking it from the LRU in that case). -/
theorem C5_rearm (s : SysState) (id : Nat) :
    ((s.ocs id).timer_when = exp_when (s.exps id) → EXP_Rearm s id = some s) ∧
    ((s.ocs id).timer_when ≠ exp_when (s.exps id) → (s.ocs id).offlru = true →
      EXP_Rearm s id = some { s with
        ocs := updFn s.ocs id
          (if exp_when (s.exps id) < 0 then { s.ocs id with dying := true }
           else { s.ocs id with move := true }) }) ∧
    ((s.ocs id).timer_when ≠ exp_when (s.exps id) → (s.ocs id).offlru = false →
      EXP_Rearm s id = some { s with
        ocs := updFn s.ocs id
          (if exp_when (s.exps id) < 0 then { s.ocs id with dying := true, offlru := true }
           else { s.ocs id with move := true, offlru := true }),
        lru := { s.lru with list := s.lru.list.erase id },
        inbox := if exp_when (s.exps id) < 0 ∨ (s.ocs id).dying = true
                 then id :: s.inbox else s.inbox ++ [id] }) := by
  refine ⟨fun he => by simp [EXP_Rearm, he], ?_, ?_⟩
  · intro hne ho
    by_cases hw : exp_when (s.exps id) < 0 <;>
      simp [EXP_Rearm, hne, ho, hw]
  · intro hne ho
    by_cases hw : exp_when (s.exps id) < 0 <;>
      by_cases hd : (s.ocs id).dying = true <;>
        simp [EXP_Rearm, exp_mail_it, hne, ho, hw, hd, updFn_same]

/-- Witness for C5: rearming objcore 0 of the start state (timer_when 0,
recomputed wake -1, on-LRU) marks it DYING and mails it. -/
theorem C5_witness :
    (initState.ocs 0).timer_when ≠ exp_when (initState.exps 0) ∧
    (initState.ocs 0).offlru = false ∧
    EXP_Rearm initState 0 = some { initState with
      ocs := updFn initState.ocs 0
        (if exp_when (initState.exps 0) < 0
         then { initState.ocs 0 with dying := true, offlru := true }
         else { initState.ocs 0 with move := true, offlru := true }),
      lru := { initState.lru with list := initState.lru.list.erase 0 },
      inbox := if exp_when (initState.exps 0) < 0 ∨ (initState.ocs 0).dying = true
               then 0 :: initState.inbox else initState.inbox ++ [0] } :=
  ⟨by norm_num [initState, oc0, exp0, exp_when], by decide,
   (C5_rearm initState 0).2.2 (by norm_num [initState, oc0, exp0, exp_when]) (by decide)⟩

/-- Counterexample to claim C6: with DONTMOVE clear and the try-lock
succeeding, EXP_Touch on an objcore with OFFLRU set returns 1 although no
move happened (the state is returned unchanged), so the return value does
not indicate whether a move happened. -/
theorem C6_counterexample :
    EXP_Touch wStateDueOff 0 true = (wStateDueOff, 1) ∧
    wStateDueOff.n_lru_moved = 0 :=
  ⟨rfl, rfl⟩

/-- Claim C6 as amended: EXP_Touch returns 0 when DONTMOVE is set (leaving
the list order untouched) or the try-lock fails; when the lock is acquired
it returns 1 whether or not a move happened, and it moves the objcore to
the LRU tail exactly when OFFLRU is clear. -/
theorem C6_touch (s : SysState) (id : Nat) (lockok : Bool) :
    (s.lru.dontmove = true → EXP_Touch s id lockok = (s, 0)) ∧
    (s.lru.dontmove = false → lockok = false → EXP_Touch s id lockok = (s, 0)) ∧
    (s.lru.dontmove = false → lockok = true → (s.ocs id).offlru = true →
      EXP_Touch s id lockok = (s, 1)) ∧
    (s.lru.dontmove = false → lockok = true → (s.ocs id).offlru = false →
      EXP_Touch s id lockok =
        ({ s with lru := { s.lru with list := moveToTail s.lru.list id },
                  n_lru_moved := s.n_lru_moved + 1 }, 1)) := by
  refine ⟨fun hd => by simp [EXP_Touch, hd], ?_, ?_, ?_⟩
  · intro hd hl
    simp [EXP_Touch, hd, hl]
  · intro hd hl ho
    simp [EXP_Touch, hd, hl, ho]
  · intro hd hl ho
    simp [EXP_Touch, hd, hl, ho]

/-- Witness for C6 as amended: touching the on-LRU objcore 0 of wStateDue
moves it to the tail and returns 1. -/
theorem C6_witness :
    wStateDue.lru.dontmove = false ∧ (wStateDue.ocs 0).offlru = false ∧
    EXP_Touch wStateDue 0 true =
      ({ wStateDue with
          lru := { wStateDue.lru with list := moveToTail wStateDue.lru.list 0 },
          n_lru_moved := wStateDue.n_lru_moved + 1 }, 1) :=
  ⟨rfl, by decide, (C6_touch wStateDue 0 true).2.2.2 rfl rfl (by decide)⟩

/-- Claim C7: exp_mail_it inserts a DYING objcore at the inbox head and any
other at the tail, and the actor dequeues from the head; hence a DYING mail
is processed before every pending mail, and non-DYING mails keep FIFO
order. -/
theorem C7_mail_priority (s : SysState) (d m : Nat) :
    ((s.ocs d).offlru = true → (s.ocs d).dying = true →
      exp_mail_it s d = some { s with inbox := d :: s.inbox } ∧
      ∀ now, exp_thread_step { s with inbox := d :: s.inbox } now = exp_inbox s d now) ∧
    ((s.ocs m).offlru = true → (s.ocs m).dying = false →
      exp_mail_it s m = some { s with inbox := s.inbox ++ [m] }) ∧
    (∀ id rest now, s.inbox = id :: rest →
      exp_thread_step s now = exp_inbox { s with inbox := rest } id now) := by
  refine ⟨?_, ?_, ?_⟩
  · intro ho hd
    exact ⟨by simp [exp_mail_it, ho, hd], fun now => by simp [exp_thread_step]⟩
  · intro ho hd
    simp [exp_mail_it, ho, hd]
  · intro id rest now hh
    cases s
    simp_all [exp_thread_step]

/-- Witness for C7: in c7state, the DYING objcore 0 mailed after the
pending non-dying mail for objcore 1 lands at the head and is dequeued
first; the non-dying objcore 1 is appended at the tail. -/
theorem C7_witness :
    ((c7state.ocs 0).offlru = true ∧ (c7state.ocs 0).dying = true ∧
      exp_mail_it c7state 0 = some { c7state with inbox := 0 :: c7state.inbox } ∧
      ∀ now, exp_thread_step { c7state with inbox := 0 :: c7state.inbox } now =
        exp_inbox c7state 0 now) ∧
    ((c7state.ocs 1).offlru = true ∧ (c7state.ocs 1).dying = false ∧
      exp_mail_it c7state 1 = some { c7state with inbox := c7state.inbox ++ [1] }) :=
  ⟨⟨by decide, by decide,
    ((C7_mail_priority c7state 0 1).1 (by decide) (by decide)).1,
    ((C7_mail_priority c7state 0 1).1 (by decide) (by decide)).2⟩,
   ⟨by decide, by decide,
    (C7_mail_priority c7state 0 1).2.1 (by decide) (by decide)⟩⟩

/-- Counterexample to claim C2: on a DYING mail for an objcore that is not
in the heap, exp_inbox does not skip the heap delete and drop the actor's
reference as the claim describes; it hits the assert on timer_idx and
aborts (modelled as none). -/
theorem C2_counterexample : exp_inbox c2state 0 5 = none := by
  simp [exp_inbox, c2state, initState, oc0, updFn]

/-- Claim C2 as amended: exp_inbox on an objcore with OFFLRU set (asserted)
snapshots the flags, clears INSERT, MOVE and OFFLRU, sets last_lru := now
and links to the LRU tail iff the snapshot lacked DYING; then, if DYING, it
asserts heap presence (aborting when absent), deletes from the heap and
drops the actor's reference; otherwise it recomputes timer_when when MOVE
was set (also when INSERT is set as well), heap-inserts on INSERT,
heap-reorders on MOVE, and aborts when no action flag was set. -/
theorem C2_inbox (s : SysState) (id : Nat) (now : ℚ) :
    ((s.ocs id).offlru = false → exp_inbox s id now = none) ∧
    ((s.ocs id).offlru = true →
      (((s.ocs id).dying = true → id ∈ s.heap →
         exp_inbox s id now = some { s with
           ocs := updFn s.ocs id
             { s.ocs id with insert := false, move := false, offlru := false,
                             last_lru := now, refcnt := (s.ocs id).refcnt - 1 },
           heap := s.heap.erase id,
           rel := updFn s.rel id (s.rel id + 1) }) ∧
       ((s.ocs id).dying = true → id ∉ s.heap → exp_inbox s id now = none) ∧
       ((s.ocs id).dying = false → (s.ocs id).insert = true → id ∉ s.heap →
         exp_inbox s id now = some
           (let oc1 : ObjCore :=
             { s.ocs id with insert := false, move := false, offlru := false,
                             last_lru := now,
                             timer_when := if (s.ocs id).move = true
                                           then exp_when (s.exps id)
                                           else (s.ocs id).timer_when };
            { s with ocs := updFn s.ocs id oc1,
                     lru := { s.lru with list := s.lru.list ++ [id] },
                     heap := heap_add (updFn s.ocs id oc1) id s.heap })) ∧
       ((s.ocs id).dying = false → (s.ocs id).insert = true → id ∈ s.heap →
         exp_inbox s id now = none) ∧
       ((s.ocs id).dying = false → (s.ocs id).insert = false → (s.ocs id).move = true →
         id ∈ s.heap →
         exp_inbox s id now = some
           (let oc1 : ObjCore :=
             { s.ocs id with insert := false, move := false, offlru := false,
                             last_lru := now, timer_when := exp_when (s.exps id) };
            { s with ocs := updFn s.ocs id oc1,
                     lru := { s.lru with list := s.lru.list ++ [id] },
                     heap := heap_add (updFn s.ocs id oc1) id (s.heap.erase id) })) ∧
       ((s.ocs id).dying = false → (s.ocs id).insert = false → (s.ocs id).move = true →
         id ∉ s.heap → exp_inbox s id now = none) ∧
       ((s.ocs id).dying = false → (s.ocs id).insert = false → (s.ocs id).move = false →
         exp_inbox s id now = none))) := by
  refine ⟨fun ho => by simp [exp_inbox, ho], fun ho => ⟨?_, ?_, ?_, ?_, ?_, ?_, ?_⟩⟩
  · intro hd hmem
    simp [exp_inbox, ho, hd, hmem, updFn_updFn]
  · intro hd hmem
    simp [exp_inbox, ho, hd, hmem]
  · intro hd hi hmem
    by_cases hm : (s.ocs id).move = true <;>
      simp [exp_inbox, ho, hd, hi, hm, hmem, updFn_updFn]
  · intro hd hi hmem
    by_cases hm : (s.ocs id).move = true <;>
      simp [exp_inbox, ho, hd, hi, hm, hmem, updFn_updFn]
  · intro hd hi hm hmem
    simp [exp_inbox, ho, hd, hi, hm, hmem, updFn_updFn]
  · intro hd hi hm hmem
    simp [exp_inbox, ho, hd, hi, hm, hmem, updFn_updFn]
  · intro hd hi hm
    simp [exp_inbox, ho, hd, hi, hm]

/-- Witness for C2 as amended: draining the DYING mail for the
heap-resident objcore 0 of c2wit deletes it from the heap and drops the
actor's reference. -/
theorem C2_witness :
    (c2wit.ocs 0).offlru = true ∧ (c2wit.ocs 0).dying = true ∧ 0 ∈ c2wit.heap ∧
    exp_inbox c2wit 0 3 = some { c2wit with
      ocs := updFn c2wit.ocs 0
        { c2wit.ocs 0 with insert := false, move := false, offlru := false,
                           last_lru := 3, refcnt := (c2wit.ocs 0).refcnt - 1 },
      heap := c2wit.heap.erase 0,
      rel := updFn c2wit.rel 0 (c2wit.rel 0 + 1) } :=
  ⟨by decide, by decide, by decide,
   (((C2_inbox c2wit 0 3).2 (by decide)).1 (by decide) (by decide))⟩

/-- The EXP_NukeOne scan agrees with List.find? on the candidate filter
when no scanned objcore is DYING. -/
theorem nuke_candidate_eq (s : SysState) (ohlock : Nat → Bool) :
    ∀ l : List Nat, (∀ id ∈ l, (s.ocs id).dying = false) →
      nuke_candidate s ohlock l = some (l.find? (nukeable s ohlock)) := by
  intro l
  induction l with
  | nil => intro _; simp [nuke_candidate]
  | cons id rest ih =>
    intro h
    have hd : (s.ocs id).dying = false := h id (List.mem_cons_self id rest)
    have hr : ∀ j ∈ rest, (s.ocs j).dying = false :=
      fun j hj => h j (List.mem_cons_of_mem _ hj)
    by_cases hb : (s.ocs id).busy = true
    · have hn : nukeable s ohlock id = false := by simp [nukeable, hb]
      simp [nuke_candidate, hd, hb, hn, ih hr]
    · by_cases h1 : 1 < (s.ocs id).refcnt
      · have hn : nukeable s ohlock id = false := by
          simp [nukeable, hb]
          intro he
          omega
        simp [nuke_candidate, hd, hb, h1, hn, ih hr]
      · by_cases hl : ohlock id = false
        · have hn : nukeable s ohlock id = false := by simp [nukeable, hl]
          simp [nuke_candidate, hd, hb, h1, hl, hn, ih hr]
        · by_cases he : (s.ocs id).refcnt = 1
          · have hn : nukeable s ohlock id = true := by
              simp [nukeable, hb, he]
              exact Bool.of_not_eq_false hl
            simp [nuke_candidate, hd, hb, h1, hl, he, hn]
          · have hn : nukeable s ohlock id = false := by simp [nukeable, he]
            simp [nuke_candidate, hd, hb, h1, hl, he, hn, ih hr]

/-- Claim C4: EXP_NukeOne selects the head-most LRU objcore that is not
BUSY, has refcnt exactly 1 and whose object-head try-lock succeeds; it
marks it DYING and OFFLRU, counts n_lru_nuked, unlinks it from the LRU,
mails it (the donated reference and the released caller reference leaving
refcnt net unchanged) and returns 1; with no candidate it returns -1
leaving the state unchanged. -/
theorem C4_nukeone (s : SysState) (ohlock : Nat → Bool)
    (hnd : ∀ id ∈ s.lru.list, (s.ocs id).dying = false) :
    (s.lru.list.find? (nukeable s ohlock) = none → EXP_NukeOne s ohlock = some (s, -1)) ∧
    (∀ id, s.lru.list.find? (nukeable s ohlock) = some id →
      EXP_NukeOne s ohlock = some
        ({ s with
            ocs := updFn s.ocs id { s.ocs id with dying := true, offlru := true },
            n_lru_nuked := s.n_lru_nuked + 1,
            lru := { s.lru with list := s.lru.list.erase id },
            inbox := id :: s.inbox }, 1)) := by
  have hc := nuke_candidate_eq s ohlock s.lru.list hnd
  constructor
  · intro hf
    rw [hf] at hc
    simp [EXP_NukeOne, hc]
  · intro id hf
    rw [hf] at hc
    simp [EXP_NukeOne, hc, exp_mail_it, updFn_same, updFn_updFn]

/-- Witness for C4: in c4state the head objcore 1 has refcnt 2 and is
skipped; objcore 0 is nuked and mailed, and NukeOne returns 1. -/
theorem C4_witness :
    (∀ id ∈ c4state.lru.list, (c4state.ocs id).dying = false) ∧
    c4state.lru.list.find? (nukeable c4state (fun _ => true)) = some 0 ∧
    EXP_NukeOne c4state (fun _ => true) = some
      ({ c4state with
          ocs := updFn c4state.ocs 0 { c4state.ocs 0 with dying := true, offlru := true },
          n_lru_nuked := c4state.n_lru_nuked + 1,
          lru := { c4state.lru with list := c4state.lru.list.erase 0 },
          inbox := 0 :: c4state.inbox }, 1) :=
  ⟨by decide, by decide,
   (C4_nukeone c4state (fun _ => true) (by decide)).2 0 (by decide)⟩

theorem mem_heap_add (f : Nat → ObjCore) (id a : Nat) (l : List Nat) :
    a ∈ heap_add f id l ↔ a = id ∨ a ∈ l := by
  induction l with
  | nil => simp [heap_add]
  | cons x xs ih =>
    by_cases h : (f id).timer_when < (f x).timer_when
    · simp [heap_add, h]
      try tauto
    · simp [heap_add, h, ih]
      try tauto

theorem heap_add_nodup (f : Nat → ObjCore) (id : Nat) (l : List Nat)
    (hid : id ∉ l) (hl : l.Nodup) : (heap_add f id l).Nodup := by
  induction l with
  | nil => simp [heap_add]
  | cons x xs ih =>
    rw [List.nodup_cons] at hl
    have hx : id ≠ x := fun he => hid (he ▸ List.mem_cons_self x xs)
    have hxs : id ∉ xs := fun he => hid (List.mem_cons_of_mem _ he)
    by_cases h : (f id).timer_when < (f x).timer_when
    · simp [heap_add, h, List.nodup_cons, hl.1, hl.2, hx, Ne.symm hx, hxs, hid]
    · rw [heap_add, if_neg h]
      rw [List.nodup_cons]
      refine ⟨?_, ih hxs hl.2⟩
      rw [mem_heap_add]
      rintro (he | he)
      · exact hx he.symm
      · exact hl.1 he

/-- The invariant holds at startup. -/
theorem sysInv_init : SysInv initState := by
  constructor <;> simp [initState, MailboxInv, refBal, oc0]

theorem EXP_Inject_eq (s : SysState) (id : Nat) (w : ℚ)
    (hoff : (s.ocs id).offlru = false) :
    EXP_Inject s id w = some { s with
      lru := { s.lru with n_objcore := s.lru.n_objcore + 1 },
      ocs := updFn s.ocs id { s.ocs id with offlru := true, insert := true, timer_when := w },
      acq := updFn s.acq id (s.acq id + 1),
      inbox := if (s.ocs id).dying = true then id :: s.inbox else s.inbox ++ [id] } := by
  by_cases hd : (s.ocs id).dying = true <;>
    simp [EXP_Inject, exp_mail_it, hoff, hd, updFn_same]

theorem EXP_Insert_eq (s : SysState) (id : Nat) (now : ℚ)
    (ht : (s.exps id).t_origin ≠ 0) (hoff : (s.ocs id).offlru = false) :
    EXP_Insert s id now = some { s with
      lru := { s.lru with n_objcore := s.lru.n_objcore + 1 },
      ocs := updFn s.ocs id
        { s.ocs id with refcnt := (s.ocs id).refcnt + 1, last_lru := now,
                        offlru := true, insert := true,
                        timer_when := exp_when (s.exps id) },
      acq := updFn s.acq id (s.acq id + 1),
      inbox := if (s.ocs id).dying = true then id :: s.inbox else s.inbox ++ [id] } := by
  by_cases hd : (s.ocs id).dying = true <;>
    simp [EXP_Insert, exp_mail_it, ht, hoff, hd, updFn_same]

theorem EXP_Rearm_eq_same (s : SysState) (id : Nat)
    (he : (s.ocs id).timer_when = exp_when (s.exps id)) :
    EXP_Rearm s id = some s := by
  simp [EXP_Rearm, he]

theorem EXP_Rearm_eq_off (s : SysState) (id : Nat)
    (he : (s.ocs id).timer_when ≠ exp_when (s.exps id))
    (ho : (s.ocs id).offlru = true) :
    EXP_Rearm s id = some { s with
      ocs := updFn s.ocs id
        (if exp_when (s.exps id) < 0 then { s.ocs id with dying := true }
         else { s.ocs id with move := true }) } := by
  by_cases hw : exp_when (s.exps id) < 0 <;> simp [EXP_Rearm, he, ho, hw]

theorem EXP_Rearm_eq_mail (s : SysState) (id : Nat)
    (he : (s.ocs id).timer_when ≠ exp_when (s.exps id))
    (ho : (s.ocs id).offlru = false) :
    EXP_Rearm s id = some { s with
      ocs := updFn s.ocs id
        (if exp_when (s.exps id) < 0 then { s.ocs id with dying := true, offlru := true }
         else { s.ocs id with move := true, offlru := true }),
      lru := { s.lru with list := s.lru.list.erase id },
      inbox := if exp_when (s.exps id) < 0 ∨ (s.ocs id).dying = true
               then id :: s.inbox else s.inbox ++ [id] } := by
  by_cases hw : exp_when (s.exps id) < 0 <;>
    by_cases hd : (s.ocs id).dying = true <;>
      simp [EXP_Rearm, exp_mail_it, he, ho, hw, hd, updFn_same]

theorem exp_inbox_eq_dying (s : SysState) (id : Nat) (now : ℚ)
    (ho : (s.ocs id).offlru = true) (hd : (s.ocs id).dying = true)
    (hm : id ∈ s.heap) :
    exp_inbox s id now = some { s with
      ocs := updFn s.ocs id
        { s.ocs id with insert := false, move := false, offlru := false,
                        last_lru := now, refcnt := (s.ocs id).refcnt - 1 },
      heap := s.heap.erase id,
      rel := updFn s.rel id (s.rel id + 1) } := by
  simp [exp_inbox, ho, hd, hm, updFn_updFn]

theorem exp_inbox_eq_insert (s : SysState) (id : Nat) (now : ℚ)
    (ho : (s.ocs id).offlru = true) (hd : (s.ocs id).dying = false)
    (hi : (s.ocs id).insert = true) (hm : id ∉ s.heap) :
    exp_inbox s id now = some
      (let oc1 : ObjCore :=
        { s.ocs id with insert := false, move := false, offlru := false,
                        last_lru := now,
                        timer_when := if (s.ocs id).move = true
                                      then exp_when (s.exps id)
                                      else (s.ocs id).timer_when };
       { s with ocs := updFn s.ocs id oc1,
                lru := { s.lru with list := s.lru.list ++ [id] },
                heap := heap_add (updFn s.ocs id oc1) id s.heap }) := by
  by_cases hmv : (s.ocs id).move = true <;>
    simp [exp_inbox, ho, hd, hi, hmv, hm, updFn_updFn]

theorem exp_inbox_eq_move (s : SysState) (id : Nat) (now : ℚ)
    (ho : (s.ocs id).offlru = true) (hd : (s.ocs id).dying = false)
    (hi : (s.ocs id).insert = false) (hmv : (s.ocs id).move = true)
    (hm : id ∈ s.heap) :
    exp_inbox s id now = some
      (let oc1 : ObjCore :=
        { s.ocs id with insert := false, move := false, offlru := false,
                        last_lru := now, timer_when := exp_when (s.exps id) };
       { s with ocs := updFn s.ocs id oc1,
                lru := { s.lru with list := s.lru.list ++ [id] },
                heap := heap_add (updFn s.ocs id oc1) id (s.heap.erase id) }) := by
  simp [exp_inbox, ho, hd, hi, hmv, hm, updFn_updFn]

theorem exp_expire_eq_claimed (s : SysState) (now : ℚ) (id : Nat) (rest : List Nat)
    (hh : s.heap = id :: rest) (hle : (s.ocs id).timer_when ≤ now)
    (hb : (s.ocs id).busy = false) (ho : (s.ocs id).offlru = true) :
    exp_expire s now =
      ({ s with n_expired := s.n_expired + 1,
                ocs := updFn s.ocs id { s.ocs id with dying := true } }, now + 1/1000) := by
  simp [exp_expire, hh, not_lt.mpr hle, hb, ho]

theorem exp_expire_eq_fire (s : SysState) (now : ℚ) (id : Nat) (rest : List Nat)
    (hh : s.heap = id :: rest) (hle : (s.ocs id).timer_when ≤ now)
    (hb : (s.ocs id).busy = false) (ho : (s.ocs id).offlru = false) :
    exp_expire s now =
      ({ s with n_expired := s.n_expired + 1,
                ocs := updFn s.ocs id
                  { s.ocs id with dying := true, offlru := true,
                                  refcnt := (s.ocs id).refcnt - 1 },
                lru := { s.lru with list := s.lru.list.erase id },
                heap := rest,
                rel := updFn s.rel id (s.rel id + 1) }, 0) := by
  simp [exp_expire, hh, not_lt.mpr hle, hb, ho]

theorem exp_expire_eq_empty (s : SysState) (now : ℚ) (hh : s.heap = []) :
    exp_expire s now = (s, now + 355/113) := by
  simp [exp_expire, hh]

theorem exp_expire_eq_notdue (s : SysState) (now : ℚ) (id : Nat) (rest : List Nat)
    (hh : s.heap = id :: rest) (hlt : now < (s.ocs id).timer_when) :
    exp_expire s now = (s, (s.ocs id).timer_when) := by
  simp [exp_expire, hh, hlt]

theorem exp_expire_eq_busy (s : SysState) (now : ℚ) (id : Nat) (rest : List Nat)
    (hh : s.heap = id :: rest) (hle : (s.ocs id).timer_when ≤ now)
    (hb : (s.ocs id).busy = true) :
    exp_expire s now = (s, now + 1/100) := by
  simp [exp_expire, hh, not_lt.mpr hle, hb]

/-- A freshly inserted objcore (OFFLRU and INSERT set, untracked before)
mailed into the inbox preserves the invariant. -/
theorem sysInv_mailNew (s : SysState) (id : Nat) (oc1 : ObjCore) (n1 : Nat)
    (hinv : SysInv s)
    (hoff : oc1.offlru = true) (hins : oc1.insert = true)
    (hl : id ∉ s.lru.list) (hi : id ∉ s.inbox) (hh : id ∉ s.heap) (ha : s.acq id = 0) :
    SysInv { s with
      lru := { s.lru with n_objcore := n1 },
      ocs := updFn s.ocs id oc1,
      acq := updFn s.acq id (s.acq id + 1),
      inbox := if (s.ocs id).dying = true then id :: s.inbox else s.inbox ++ [id] } := by
  obtain ⟨A, B, C, D, K, F, G, E, H, I2⟩ := hinv
  have hmem : ∀ j, (j ∈ if (s.ocs id).dying = true then id :: s.inbox else s.inbox ++ [id])
      ↔ j = id ∨ j ∈ s.inbox := by
    intro j
    by_cases hd : (s.ocs id).dying = true <;> (simp [hd]; try tauto)
  have hrel0 : s.rel id = 0 ∧ refBal s id = 0 := by
    have := E id
    omega
  constructor
  case mbox =>
    intro j hj
    dsimp only at hj ⊢
    rcases (hmem j).mp hj with hje | hjs
    · subst hje
      rw [updFn_same]
      exact ⟨hoff, Or.inl hins⟩
    · have hji : j ≠ id := fun he => hi (he ▸ hjs)
      rw [updFn_other _ _ _ _ hji]
      exact A j hjs
  case inboxNodup =>
    dsimp only
    by_cases hd : (s.ocs id).dying = true <;> simp [hd, List.nodup_append, B, hi]
  case disj =>
    intro j hj
    dsimp only at hj ⊢
    rcases (hmem j).mp hj with hje | hjs
    · subst hje; exact hl
    · exact C j hjs
  case lruNodup => exact D
  case heapNodup => exact K
  case insNotHeap =>
    intro j hjins
    dsimp only at hjins ⊢
    by_cases hji : j = id
    · subst hji; exact hh
    · rw [updFn_other _ _ _ _ hji] at hjins
      exact F j hjins
  case insInbox =>
    intro j hjins
    dsimp only at hjins ⊢
    by_cases hji : j = id
    · subst hji
      exact (hmem _).mpr (Or.inl rfl)
    · rw [updFn_other _ _ _ _ hji] at hjins
      exact (hmem j).mpr (Or.inr (G j hjins))
  case bal =>
    intro j
    simp only [refBal]
    dsimp only
    by_cases hji : j = id
    · subst hji
      rw [updFn_same, updFn_same, ha, hrel0.1]
      rw [if_pos ⟨(hmem j).mpr (Or.inl rfl), hins⟩, if_neg hh]
    · rw [updFn_other _ _ _ _ hji, updFn_other _ _ _ _ hji]
      have hiff : ((j ∈ if (s.ocs id).dying = true then id :: s.inbox else s.inbox ++ [id])
          ∧ (s.ocs j).insert = true) ↔ ((j ∈ s.inbox) ∧ (s.ocs j).insert = true) := by
        constructor
        · rintro ⟨hm, hin⟩
          rcases (hmem j).mp hm with he | hm2
          · exact absurd he hji
          · exact ⟨hm2, hin⟩
        · rintro ⟨hm, hin⟩
          exact ⟨(hmem j).mpr (Or.inr hm), hin⟩
      rw [if_congr hiff rfl rfl]
      have := E j
      simp only [refBal] at this
      exact this
  case acqLe =>
    intro j
    dsimp only
    by_cases hji : j = id
    · subst hji
      rw [updFn_same, ha]
    · rw [updFn_other _ _ _ _ hji]
      exact H j
  case offHeapInbox =>
    intro j hjh hjo
    dsimp only at hjh hjo ⊢
    have hji : j ≠ id := fun he => hh (he ▸ hjh)
    rw [updFn_other _ _ _ _ hji] at hjo
    exact (hmem j).mpr (Or.inr (I2 j hjh hjo))

theorem sysInv_inject (s s' : SysState) (id : Nat) (w : ℚ) (hinv : SysInv s)
    (hl : id ∉ s.lru.list) (hi : id ∉ s.inbox) (hh : id ∉ s.heap) (ha : s.acq id = 0)
    (h : EXP_Inject s id w = some s') : SysInv s' := by
  cases hoffv : (s.ocs id).offlru with
  | true => simp [EXP_Inject, hoffv] at h
  | false =>
    rw [EXP_Inject_eq s id w hoffv] at h
    obtain rfl := Option.some_inj.mp h
    exact sysInv_mailNew s id _ _ hinv rfl rfl hl hi hh ha

theorem sysInv_insert (s s' : SysState) (id : Nat) (now : ℚ) (hinv : SysInv s)
    (hl : id ∉ s.lru.list) (hi : id ∉ s.inbox) (hh : id ∉ s.heap) (ha : s.acq id = 0)
    (h : EXP_Insert s id now = some s') : SysInv s' := by
  by_cases ht : (s.exps id).t_origin = 0
  · simp [EXP_Insert, ht] at h
  · cases hoffv : (s.ocs id).offlru with
    | true => simp [EXP_Insert, ht, hoffv] at h
    | false =>
      rw [EXP_Insert_eq s id now ht hoffv] at h
      obtain rfl := Option.some_inj.mp h
      exact sysInv_mailNew s id _ _ hinv rfl rfl hl hi hh ha

theorem sysInv_setExp (s : SysState) (id : Nat) (e : ObjExp) (hinv : SysInv s) :
    SysInv { s with exps := updFn s.exps id e } := by
  obtain ⟨A, B, C, D, K, F, G, E, H, I2⟩ := hinv
  exact ⟨A, B, C, D, K, F, G, E, H, I2⟩

theorem sysInv_touch (s : SysState) (id : Nat) (lockok : Bool) (hinv : SysInv s) :
    SysInv (EXP_Touch s id lockok).1 := by
  obtain ⟨A, B, C, D, K, F, G, E, H, I2⟩ := hinv
  by_cases hd : s.lru.dontmove = true
  · rw [EXP_Touch, if_pos hd]
    exact ⟨A, B, C, D, K, F, G, E, H, I2⟩
  · by_cases hlk : lockok = false
    · rw [EXP_Touch, if_neg hd, if_pos hlk]
      exact ⟨A, B, C, D, K, F, G, E, H, I2⟩
    · by_cases ho : (s.ocs id).offlru = false
      · rw [EXP_Touch, if_neg hd, if_neg hlk, if_pos ho]
        refine ⟨A, B, ?_, ?_, K, F, G, E, H, I2⟩
        · intro j hj
          dsimp only at hj ⊢
          simp only [moveToTail, List.mem_append, List.mem_singleton]
          rintro (hm | he)
          · exact C j hj (List.mem_of_mem_erase hm)
          · subst he
            have := (A j hj).1
            rw [ho] at this
            exact Bool.noConfusion this
        · dsimp only
          simp only [moveToTail, List.nodup_append, List.nodup_singleton]
          exact ⟨D.erase id, by simp, by simp [List.disjoint_singleton, D.not_mem_erase]⟩
      · rw [EXP_Touch, if_neg hd, if_neg hlk, if_neg ho]
        exact ⟨A, B, C, D, K, F, G, E, H, I2⟩

theorem nuke_candidate_mem (s : SysState) (ohlock : Nat → Bool) :
    ∀ l id, nuke_candidate s ohlock l = some (some id) → id ∈ l := by
  intro l
  induction l with
  | nil => intro id h; simp [nuke_candidate] at h
  | cons x xs ih =>
    intro id h
    rw [nuke_candidate] at h
    by_cases h1 : (s.ocs x).dying = true
    · rw [if_pos h1] at h; cases h
    · rw [if_neg h1] at h
      by_cases h2 : (s.ocs x).busy = true
      · rw [if_pos h2] at h; exact List.mem_cons_of_mem _ (ih id h)
      · rw [if_neg h2] at h
        by_cases h3 : 1 < (s.ocs x).refcnt
        · rw [if_pos h3] at h; exact List.mem_cons_of_mem _ (ih id h)
        · rw [if_neg h3] at h
          by_cases h4 : ohlock x = false
          · rw [if_pos h4] at h; exact List.mem_cons_of_mem _ (ih id h)
          · rw [if_neg h4] at h
            by_cases h5 : (s.ocs x).refcnt = 1
            · rw [if_pos h5] at h
              obtain rfl : x = id := by
                have h6 := Option.some_inj.mp h
                exact Option.some_inj.mp h6
              exact List.mem_cons_self _ _
            · rw [if_neg h5] at h
              exact List.mem_cons_of_mem _ (ih id h)

theorem EXP_NukeOne_eq_success (s : SysState) (ohlock : Nat → Bool) (id : Nat)
    (hc : nuke_candidate s ohlock s.lru.list = some (some id)) :
    EXP_NukeOne s ohlock = some
      ({ s with
          ocs := updFn s.ocs id { s.ocs id with dying := true, offlru := true },
          n_lru_nuked := s.n_lru_nuked + 1,
          lru := { s.lru with list := s.lru.list.erase id },
          inbox := id :: s.inbox }, 1) := by
  simp [EXP_NukeOne, hc, exp_mail_it, updFn_same, updFn_updFn]

/-- Changing only the flags of one objcore, keeping OFFLRU and INSERT as
they were and keeping at least one action flag when one was set, preserves
the invariant (covers Rearm on an OFFLRU objcore and the claimed branch of
exp_expire). -/
theorem sysInv_flagsOnly (s : SysState) (id : Nat) (ocn : ObjCore) (nE : Nat)
    (hinv : SysInv s)
    (hoff : ocn.offlru = (s.ocs id).offlru)
    (hins : ocn.insert = (s.ocs id).insert)
    (hact : ((s.ocs id).insert = true ∨ (s.ocs id).move = true ∨ (s.ocs id).dying = true) →
            (ocn.insert = true ∨ ocn.move = true ∨ ocn.dying = true)) :
    SysInv { s with n_expired := nE, ocs := updFn s.ocs id ocn } := by
  obtain ⟨A, B, C, D, K, F, G, E, H, I2⟩ := hinv
  refine ⟨?_, B, C, D, K, ?_, ?_, ?_, H, ?_⟩
  · intro j hj
    dsimp only at hj ⊢
    by_cases hji : j = id
    · subst hji
      rw [updFn_same]
      refine ⟨?_, hact (A j hj).2⟩
      rw [hoff]
      exact (A j hj).1
    · rw [updFn_other _ _ _ _ hji]
      exact A j hj
  · intro j hx
    dsimp only at hx ⊢
    by_cases hji : j = id
    · subst hji
      rw [updFn_same, hins] at hx
      exact F j hx
    · rw [updFn_other _ _ _ _ hji] at hx
      exact F j hx
  · intro j hx
    dsimp only at hx ⊢
    by_cases hji : j = id
    · subst hji
      rw [updFn_same, hins] at hx
      exact G j hx
    · rw [updFn_other _ _ _ _ hji] at hx
      exact G j hx
  · intro j
    simp only [refBal]
    dsimp only
    by_cases hji : j = id
    · subst hji
      rw [updFn_same]
      rw [if_congr (by rw [hins]) rfl rfl]
      exact E j
    · rw [updFn_other _ _ _ _ hji]
      exact E j
  · intro j hjh hjo
    dsimp only at hjh hjo ⊢
    by_cases hji : j = id
    · subst hji
      rw [updFn_same, hoff] at hjo
      exact I2 j hjh hjo
    · rw [updFn_other _ _ _ _ hji] at hjo
      exact I2 j hjh hjo

theorem sysInv_rearm (s s' : SysState) (id : Nat) (hinv : SysInv s)
    (h : EXP_Rearm s id = some s') : SysInv s' := by
  by_cases he : (s.ocs id).timer_when = exp_when (s.exps id)
  · rw [EXP_Rearm_eq_same s id he] at h
    obtain rfl := Option.some_inj.mp h
    exact hinv
  · by_cases ho : (s.ocs id).offlru = true
    · rw [EXP_Rearm_eq_off s id he ho] at h
      obtain rfl := Option.some_inj.mp h
      exact sysInv_flagsOnly s id _ s.n_expired hinv
        (by by_cases hw : exp_when (s.exps id) < 0 <;> simp [hw])
        (by by_cases hw : exp_when (s.exps id) < 0 <;> simp [hw])
        (fun _ => by by_cases hw : exp_when (s.exps id) < 0 <;> simp [hw])
    · have ho2 : (s.ocs id).offlru = false := by
        cases hv : (s.ocs id).offlru
        · rfl
        · exact absurd hv ho
      obtain ⟨A, B, C, D, K, F, G, E, H, I2⟩ := hinv
      have hid_in : id ∉ s.inbox := fun hin => by
        have := (A id hin).1
        rw [ho2] at this
        exact Bool.noConfusion this
      have hins_f : (s.ocs id).insert = false := by
        cases hv : (s.ocs id).insert
        · rfl
        · exact absurd (G id hv) hid_in
      rw [EXP_Rearm_eq_mail s id he ho2] at h
      obtain rfl := Option.some_inj.mp h
      have hmem : ∀ j, (j ∈ if exp_when (s.exps id) < 0 ∨ (s.ocs id).dying = true
          then id :: s.inbox else s.inbox ++ [id]) ↔ j = id ∨ j ∈ s.inbox := by
        intro j
        by_cases hd : exp_when (s.exps id) < 0 ∨ (s.ocs id).dying = true <;>
          (simp [hd]; try tauto)
      have hocn_off : (if exp_when (s.exps id) < 0
          then { s.ocs id with dying := true, offlru := true }
          else { s.ocs id with move := true, offlru := true }).offlru = true := by
        by_cases hw : exp_when (s.exps id) < 0 <;> simp [hw]
      have hocn_ins : (if exp_when (s.exps id) < 0
          then { s.ocs id with dying := true, offlru := true }
          else { s.ocs id with move := true, offlru := true }).insert
          = (s.ocs id).insert := by
        by_cases hw : exp_when (s.exps id) < 0 <;> simp [hw]
      have hocn_act : (if exp_when (s.exps id) < 0
          then { s.ocs id with dying := true, offlru := true }
          else { s.ocs id with move := true, offlru := true }).move = true ∨
          (if exp_when (s.exps id) < 0
          then { s.ocs id with dying := true, offlru := true }
          else { s.ocs id with move := true, offlru := true }).dying = true := by
        by_cases hw : exp_when (s.exps id) < 0 <;> simp [hw]
      refine ⟨?_, ?_, ?_, D.erase id, K, ?_, ?_, ?_, H, ?_⟩
      · intro j hj
        dsimp only at hj ⊢
        rcases (hmem j).mp hj with hje | hjs
        · subst hje
          rw [updFn_same]
          exact ⟨hocn_off, Or.inr hocn_act⟩
        · have hji : j ≠ id := fun hq => hid_in (hq ▸ hjs)
          rw [updFn_other _ _ _ _ hji]
          exact A j hjs
      · dsimp only
        by_cases hd : exp_when (s.exps id) < 0 ∨ (s.ocs id).dying = true <;>
          simp [hd, List.nodup_append, B, hid_in]
      · intro j hj
        dsimp only at hj ⊢
        rcases (hmem j).mp hj with hje | hjs
        · subst hje
          exact D.not_mem_erase
        · intro hje2
          exact C j hjs (List.mem_of_mem_erase hje2)
      · intro j hx
        dsimp only at hx ⊢
        by_cases hji : j = id
        · subst hji
          rw [updFn_same, hocn_ins] at hx
          exact F j hx
        · rw [updFn_other _ _ _ _ hji] at hx
          exact F j hx
      · intro j hx
        dsimp only at hx ⊢
        by_cases hji : j = id
        · subst hji
          exact (hmem j).mpr (Or.inl rfl)
        · rw [updFn_other _ _ _ _ hji] at hx
          exact (hmem j).mpr (Or.inr (G j hx))
      · intro j
        simp only [refBal]
        try dsimp only
        have hold := E j
        simp only [refBal] at hold
        by_cases hji : j = id
        · subst hji
          rw [updFn_same]
          rw [if_neg (fun hand => by
            rw [hocn_ins, hins_f] at hand
            exact Bool.noConfusion hand.2)]
          rw [if_neg (fun hand => hid_in hand.1)] at hold
          exact hold
        · rw [updFn_other _ _ _ _ hji]
          by_cases hcond : j ∈ s.inbox ∧ (s.ocs j).insert = true
          · rw [if_pos hcond] at hold
            rw [if_pos ⟨(hmem j).mpr (Or.inr hcond.1), hcond.2⟩]
            exact hold
          · rw [if_neg hcond] at hold
            rw [if_neg (fun hand => hcond ⟨by
              rcases (hmem j).mp hand.1 with hq | hq
              · exact absurd hq hji
              · exact hq, hand.2⟩)]
            exact hold
      · intro j hjh hjo
        dsimp only at hjh hjo ⊢
        by_cases hji : j = id
        · subst hji
          exact (hmem j).mpr (Or.inl rfl)
        · rw [updFn_other _ _ _ _ hji] at hjo
          exact (hmem j).mpr (Or.inr (I2 j hjh hjo))

theorem sysInv_nuke (s s' : SysState) (ohlock : Nat → Bool) (hinv : SysInv s)
    (h : (EXP_NukeOne s ohlock).map Prod.fst = some s') : SysInv s' := by
  obtain ⟨A, B, C, D, K, F, G, E, H, I2⟩ := hinv
  rcases hc : nuke_candidate s ohlock s.lru.list with _ | cres
  · rw [EXP_NukeOne, hc] at h
    cases h
  · rcases cres with _ | id
    · rw [EXP_NukeOne, hc] at h
      simp only [Option.map_some] at h
      obtain rfl := Option.some_inj.mp h
      exact ⟨A, B, C, D, K, F, G, E, H, I2⟩
    · have hmem : id ∈ s.lru.list := nuke_candidate_mem s ohlock s.lru.list id hc
      have hid_in : id ∉ s.inbox := fun hin => C id hin hmem
      have hins_f : (s.ocs id).insert = false := by
        cases hv : (s.ocs id).insert
        · rfl
        · exact absurd (G id hv) hid_in
      rw [EXP_NukeOne_eq_success s ohlock id hc] at h
      simp only [Option.map_some] at h
      obtain rfl := Option.some_inj.mp h
      refine ⟨?_, ?_, ?_, D.erase id, K, ?_, ?_, ?_, H, ?_⟩
      · intro j hj
        dsimp only at hj ⊢
        rcases List.mem_cons.mp hj with hje | hjs
        · subst hje
          rw [updFn_same]
          exact ⟨rfl, Or.inr (Or.inr rfl)⟩
        · have hji : j ≠ id := fun hq => hid_in (hq ▸ hjs)
          rw [updFn_other _ _ _ _ hji]
          exact A j hjs
      · dsimp only
        exact List.nodup_cons.mpr ⟨hid_in, B⟩
      · intro j hj
        dsimp only at hj ⊢
        rcases List.mem_cons.mp hj with hje | hjs
        · subst hje
          exact D.not_mem_erase
        · intro hje2
          exact C j hjs (List.mem_of_mem_erase hje2)
      · intro j hx
        dsimp only at hx ⊢
        by_cases hji : j = id
        · subst hji
          rw [updFn_same] at hx
          rw [show ({ s.ocs j with dying := true, offlru := true } : ObjCore).insert
            = (s.ocs j).insert from rfl, hins_f] at hx
          exact Bool.noConfusion hx
        · rw [updFn_other _ _ _ _ hji] at hx
          exact F j hx
      · intro j hx
        dsimp only at hx ⊢
        by_cases hji : j = id
        · subst hji
          exact List.mem_cons_self _ _
        · rw [updFn_other _ _ _ _ hji] at hx
          exact List.mem_cons_of_mem _ (G j hx)
      · intro j
        simp only [refBal]
        try dsimp only
        have hold := E j
        simp only [refBal] at hold
        by_cases hji : j = id
        · subst hji
          rw [updFn_same]
          rw [if_neg (fun hand => by
            rw [show ({ s.ocs j with dying := true, offlru := true } : ObjCore).insert
              = (s.ocs j).insert from rfl, hins_f] at hand
            exact Bool.noConfusion hand.2)]
          rw [if_neg (fun hand => hid_in hand.1)] at hold
          exact hold
        · rw [updFn_other _ _ _ _ hji]
          by_cases hcond : j ∈ s.inbox ∧ (s.ocs j).insert = true
          · rw [if_pos hcond] at hold
            rw [if_pos ⟨List.mem_cons_of_mem _ hcond.1, hcond.2⟩]
            exact hold
          · rw [if_neg hcond] at hold
            rw [if_neg (fun hand => hcond ⟨by
              rcases List.mem_cons.mp hand.1 with hq | hq
              · exact absurd hq hji
              · exact hq, hand.2⟩)]
            exact hold
      · intro j hjh hjo
        dsimp only at hjh hjo ⊢
        by_cases hji : j = id
        · subst hji
          exact List.mem_cons_self _ _
        · rw [updFn_other _ _ _ _ hji] at hjo
          exact List.mem_cons_of_mem _ (I2 j hjh hjo)

theorem if_mem_and_congr {j : Nat} {l1 l2 : List Nat} (hiff : j ∈ l1 ↔ j ∈ l2) (P : Prop)
    [Decidable P] :
    ((if j ∈ l1 ∧ P then 1 else 0) : Nat) = if j ∈ l2 ∧ P then 1 else 0 := by
  by_cases hp : j ∈ l2 ∧ P
  · rw [if_pos hp, if_pos ⟨hiff.mpr hp.1, hp.2⟩]
  · rw [if_neg hp, if_neg (fun hand => hp ⟨hiff.mp hand.1, hand.2⟩)]

theorem if_mem_congr {j : Nat} {l1 l2 : List Nat} (hiff : j ∈ l1 ↔ j ∈ l2) :
    ((if j ∈ l1 then 1 else 0) : Nat) = if j ∈ l2 then 1 else 0 := by
  by_cases hp : j ∈ l2
  · rw [if_pos (hiff.mpr hp), if_pos hp]
  · rw [if_neg (fun hq => hp (hiff.mp hq)), if_neg hp]

theorem mem_cons_ne {j id : Nat} {l : List Nat} (hji : j ≠ id) :
    j ∈ id :: l ↔ j ∈ l :=
  ⟨fun hq => (List.mem_cons.mp hq).resolve_left hji, List.mem_cons_of_mem _⟩

theorem mem_heap_add_ne {f : Nat → ObjCore} {j id : Nat} {l : List Nat} (hji : j ≠ id) :
    j ∈ heap_add f id l ↔ j ∈ l := by
  rw [mem_heap_add]
  exact ⟨fun hq => hq.resolve_left hji, Or.inr⟩

theorem sysInv_drain (s s' : SysState) (id : Nat) (rest : List Nat) (now : ℚ)
    (hq : s.inbox = id :: rest) (hinv : SysInv s)
    (h : exp_inbox { s with inbox := rest } id now = some s') : SysInv s' := by
  obtain ⟨A, B, C, D, K, F, G, E, H, I2⟩ := hinv
  have hid_mem : id ∈ s.inbox := hq ▸ List.mem_cons_self id rest
  have ho : (s.ocs id).offlru = true := (A id hid_mem).1
  have hflags := (A id hid_mem).2
  have hB2 : id ∉ rest ∧ rest.Nodup := by
    rw [hq] at B
    exact List.nodup_cons.mp B
  have hArest : ∀ j ∈ rest, (s.ocs j).offlru = true ∧
      ((s.ocs j).insert = true ∨ (s.ocs j).move = true ∨ (s.ocs j).dying = true) :=
    fun j hj => A j (hq ▸ List.mem_cons_of_mem _ hj)
  have hCrest : ∀ j ∈ rest, j ∉ s.lru.list :=
    fun j hj => C j (hq ▸ List.mem_cons_of_mem _ hj)
  have hGrest : ∀ j, j ≠ id → (s.ocs j).insert = true → j ∈ rest := by
    intro j hji hx
    have := G j hx
    rw [hq] at this
    exact (List.mem_cons.mp this).resolve_left hji
  by_cases hd : (s.ocs id).dying = true
  · by_cases hm : id ∈ s.heap
    · have hins_f : (s.ocs id).insert = false := by
        cases hv : (s.ocs id).insert
        · rfl
        · exact absurd hm (F id hv)
      rw [exp_inbox_eq_dying { s with inbox := rest } id now ho hd hm] at h
      obtain rfl := Option.some_inj.mp h
      refine ⟨?_, hB2.2, ?_, D, K.erase id, ?_, ?_, ?_, H, ?_⟩
      · intro j hj
        dsimp only at hj ⊢
        have hji : j ≠ id := fun hqe => hB2.1 (hqe ▸ hj)
        rw [updFn_other _ _ _ _ hji]
        exact hArest j hj
      · intro j hj
        dsimp only at hj ⊢
        exact hCrest j hj
      · intro j hx
        dsimp only at hx ⊢
        by_cases hji : j = id
        · subst hji
          rw [updFn_same] at hx
          exact Bool.noConfusion hx
        · rw [updFn_other _ _ _ _ hji] at hx
          intro hq2
          exact F j hx (List.mem_of_mem_erase hq2)
      · intro j hx
        dsimp only at hx ⊢
        by_cases hji : j = id
        · subst hji
          rw [updFn_same] at hx
          exact Bool.noConfusion hx
        · rw [updFn_other _ _ _ _ hji] at hx
          exact hGrest j hji hx
      · intro j
        simp only [refBal]
        try dsimp only
        have hold := E j
        simp only [refBal] at hold
        by_cases hji : j = id
        · subst hji
          simp only [updFn_same]
          simp [hins_f, hm] at hold
          simp [hB2.1, K.not_mem_erase]
          try omega
        · simp only [updFn_other _ _ _ _ hji]
          rw [if_mem_and_congr (show j ∈ rest ↔ j ∈ s.inbox from by
            rw [hq]; exact (mem_cons_ne hji).symm) ((s.ocs j).insert = true)]
          rw [if_mem_congr (List.mem_erase_of_ne hji)]
          exact hold
      · intro j hjh hjo
        dsimp only at hjh hjo ⊢
        have hji : j ≠ id := ((List.Nodup.mem_erase_iff K).mp hjh).1
        rw [updFn_other _ _ _ _ hji] at hjo
        have := I2 j (List.mem_of_mem_erase hjh) hjo
        rw [hq] at this
        exact (List.mem_cons.mp this).resolve_left hji
    · simp [exp_inbox, ho, hd, hm] at h
  · have hd2 : (s.ocs id).dying = false := by
      cases hv : (s.ocs id).dying
      · rfl
      · exact absurd hv hd
    by_cases hi : (s.ocs id).insert = true
    · have hm : id ∉ s.heap := F id hi
      have hlru : id ∉ s.lru.list := C id hid_mem
      rw [exp_inbox_eq_insert { s with inbox := rest } id now ho hd2 hi hm] at h
      obtain rfl := Option.some_inj.mp h
      refine ⟨?_, hB2.2, ?_, ?_, ?_, ?_, ?_, ?_, H, ?_⟩
      · intro j hj
        dsimp only at hj ⊢
        have hji : j ≠ id := fun hqe => hB2.1 (hqe ▸ hj)
        rw [updFn_other _ _ _ _ hji]
        exact hArest j hj
      · intro j hj
        dsimp only at hj ⊢
        have hji : j ≠ id := fun hqe => hB2.1 (hqe ▸ hj)
        simp only [List.mem_append, List.mem_singleton]
        rintro (hq2 | hq2)
        · exact hCrest j hj hq2
        · exact hji hq2
      · dsimp only
        simp only [List.nodup_append, List.nodup_singleton]
        exact ⟨D, by simp, by simp [List.disjoint_singleton, hlru]⟩
      · dsimp only
        exact heap_add_nodup _ id s.heap hm K
      · intro j hx
        dsimp only at hx ⊢
        by_cases hji : j = id
        · subst hji
          rw [updFn_same] at hx
          exact Bool.noConfusion hx
        · rw [updFn_other _ _ _ _ hji] at hx
          rw [mem_heap_add_ne hji]
          exact F j hx
      · intro j hx
        dsimp only at hx ⊢
        by_cases hji : j = id
        · subst hji
          rw [updFn_same] at hx
          exact Bool.noConfusion hx
        · rw [updFn_other _ _ _ _ hji] at hx
          exact hGrest j hji hx
      · intro j
        simp only [refBal]
        try dsimp only
        have hold := E j
        simp only [refBal] at hold
        by_cases hji : j = id
        · subst hji
          simp only [updFn_same]
          simp [hid_mem, hi, hm] at hold
          simp [hB2.1, mem_heap_add]
          try omega
        · simp only [updFn_other _ _ _ _ hji]
          rw [if_mem_and_congr (show j ∈ rest ↔ j ∈ s.inbox from by
            rw [hq]; exact (mem_cons_ne hji).symm) ((s.ocs j).insert = true)]
          rw [if_mem_congr (mem_heap_add_ne hji)]
          exact hold
      · intro j hjh hjo
        dsimp only at hjh hjo ⊢
        by_cases hji : j = id
        · subst hji
          rw [updFn_same] at hjo
          exact Bool.noConfusion hjo
        · rw [updFn_other _ _ _ _ hji] at hjo
          rw [mem_heap_add_ne hji] at hjh
          have := I2 j hjh hjo
          rw [hq] at this
          exact (List.mem_cons.mp this).resolve_left hji
    · have hi2 : (s.ocs id).insert = false := by
        cases hv : (s.ocs id).insert
        · rfl
        · exact absurd hv hi
      by_cases hmv : (s.ocs id).move = true
      · by_cases hm : id ∈ s.heap
        · have hlru : id ∉ s.lru.list := C id hid_mem
          rw [exp_inbox_eq_move { s with inbox := rest } id now ho hd2 hi2 hmv hm] at h
          obtain rfl := Option.some_inj.mp h
          refine ⟨?_, hB2.2, ?_, ?_, ?_, ?_, ?_, ?_, H, ?_⟩
          · intro j hj
            dsimp only at hj ⊢
            have hji : j ≠ id := fun hqe => hB2.1 (hqe ▸ hj)
            rw [updFn_other _ _ _ _ hji]
            exact hArest j hj
          · intro j hj
            dsimp only at hj ⊢
            have hji : j ≠ id := fun hqe => hB2.1 (hqe ▸ hj)
            simp only [List.mem_append, List.mem_singleton]
            rintro (hq2 | hq2)
            · exact hCrest j hj hq2
            · exact hji hq2
          · dsimp only
            simp only [List.nodup_append, List.nodup_singleton]
            exact ⟨D, by simp, by simp [List.disjoint_singleton, hlru]⟩
          · dsimp only
            exact heap_add_nodup _ id _ K.not_mem_erase (K.erase id)
          · intro j hx
            dsimp only at hx ⊢
            by_cases hji : j = id
            · subst hji
              rw [updFn_same] at hx
              exact Bool.noConfusion hx
            · rw [updFn_other _ _ _ _ hji] at hx
              rw [mem_heap_add_ne hji]
              intro hq2
              exact F j hx (List.mem_of_mem_erase hq2)
          · intro j hx
            dsimp only at hx ⊢
            by_cases hji : j = id
            · subst hji
              rw [updFn_same] at hx
              exact Bool.noConfusion hx
            · rw [updFn_other _ _ _ _ hji] at hx
              exact hGrest j hji hx
          · intro j
            simp only [refBal]
            try dsimp only
            have hold := E j
            simp only [refBal] at hold
            by_cases hji : j = id
            · subst hji
              simp only [updFn_same]
              simp [hi2, hm] at hold
              simp [hB2.1, mem_heap_add]
              try omega
            · simp only [updFn_other _ _ _ _ hji]
              rw [if_mem_and_congr (show j ∈ rest ↔ j ∈ s.inbox from by
                rw [hq]; exact (mem_cons_ne hji).symm) ((s.ocs j).insert = true)]
              rw [if_mem_congr ((mem_heap_add_ne hji).trans (List.mem_erase_of_ne hji))]
              exact hold
          · intro j hjh hjo
            dsimp only at hjh hjo ⊢
            by_cases hji : j = id
            · subst hji
              rw [updFn_same] at hjo
              exact Bool.noConfusion hjo
            · rw [updFn_other _ _ _ _ hji] at hjo
              rw [mem_heap_add_ne hji] at hjh
              have := I2 j (List.mem_of_mem_erase hjh) hjo
              rw [hq] at this
              exact (List.mem_cons.mp this).resolve_left hji
        · simp [exp_inbox, ho, hd2, hi2, hmv, hm] at h
      · have hmv2 : (s.ocs id).move = false := by
          cases hv : (s.ocs id).move
          · rfl
          · exact absurd hv hmv
        rcases hflags with hx | hx | hx
        · rw [hi2] at hx; exact Bool.noConfusion hx
        · rw [hmv2] at hx; exact Bool.noConfusion hx
        · rw [hd2] at hx; exact Bool.noConfusion hx

theorem sysInv_expire (s : SysState) (now : ℚ) (hinv : SysInv s) :
    SysInv (exp_expire s now).1 := by
  cases hh : s.heap with
  | nil =>
    rw [exp_expire_eq_empty s now hh]
    exact hinv
  | cons id rest =>
    by_cases hlt : now < (s.ocs id).timer_when
    · rw [exp_expire_eq_notdue s now id rest hh hlt]
      exact hinv
    · have hle : (s.ocs id).timer_when ≤ now := le_of_not_lt hlt
      by_cases hb : (s.ocs id).busy = true
      · rw [exp_expire_eq_busy s now id rest hh hle hb]
        exact hinv
      · have hb2 : (s.ocs id).busy = false := by
          cases hv : (s.ocs id).busy
          · rfl
          · exact absurd hv hb
        by_cases ho : (s.ocs id).offlru = true
        · rw [exp_expire_eq_claimed s now id rest hh hle hb2 ho]
          exact sysInv_flagsOnly s id _ (s.n_expired + 1) hinv rfl rfl
            (fun _ => Or.inr (Or.inr rfl))
        · have ho2 : (s.ocs id).offlru = false := by
            cases hv : (s.ocs id).offlru
            · rfl
            · exact absurd hv ho
          obtain ⟨A, B, C, D, K, F, G, E, H, I2⟩ := hinv
          have hid_in : id ∉ s.inbox := fun hin => by
            have := (A id hin).1
            rw [ho2] at this
            exact Bool.noConfusion this
          have hins_f : (s.ocs id).insert = false := by
            cases hv : (s.ocs id).insert
            · rfl
            · exact absurd (G id hv) hid_in
          have hK : id ∉ rest ∧ rest.Nodup := by
            rw [hh] at K
            exact List.nodup_cons.mp K
          have hmem_heap : id ∈ s.heap := hh ▸ List.mem_cons_self id rest
          rw [exp_expire_eq_fire s now id rest hh hle hb2 ho2]
          refine ⟨?_, B, ?_, D.erase id, hK.2, ?_, ?_, ?_, H, ?_⟩
          · intro j hj
            dsimp only at hj ⊢
            have hji : j ≠ id := fun hqe => hid_in (hqe ▸ hj)
            rw [updFn_other _ _ _ _ hji]
            exact A j hj
          · intro j hj
            dsimp only at hj ⊢
            intro hq2
            exact C j hj (List.mem_of_mem_erase hq2)
          · intro j hx
            dsimp only at hx ⊢
            by_cases hji : j = id
            · subst hji
              rw [updFn_same] at hx
              rw [show ({ s.ocs j with dying := true, offlru := true, refcnt := (s.ocs j).refcnt - 1 } : ObjCore).insert = (s.ocs j).insert from rfl, hins_f] at hx
              exact Bool.noConfusion hx
            · rw [updFn_other _ _ _ _ hji] at hx
              have := F j hx
              rw [hh] at this
              exact fun hq2 => this (List.mem_cons_of_mem _ hq2)
          · intro j hx
            dsimp only at hx ⊢
            by_cases hji : j = id
            · subst hji
              rw [updFn_same] at hx
              rw [show ({ s.ocs j with dying := true, offlru := true, refcnt := (s.ocs j).refcnt - 1 } : ObjCore).insert = (s.ocs j).insert from rfl, hins_f] at hx
              exact Bool.noConfusion hx
            · rw [updFn_other _ _ _ _ hji] at hx
              exact G j hx
          · intro j
            simp only [refBal]
            try dsimp only
            have hold := E j
            simp only [refBal] at hold
            by_cases hji : j = id
            · subst hji
              simp only [updFn_same]
              simp [hins_f, hid_in, hh] at hold
              simp [hid_in, hK.1]
              try omega
            · simp only [updFn_other _ _ _ _ hji]
              rw [if_mem_congr (show j ∈ rest ↔ j ∈ s.heap from by
                rw [hh]; exact (mem_cons_ne hji).symm)]
              exact hold
          · intro j hjh hjo
            dsimp only at hjh hjo ⊢
            have hji : j ≠ id := fun hqe => hK.1 (hqe ▸ hjh)
            rw [updFn_other _ _ _ _ hji] at hjo
            exact I2 j (hh ▸ List.mem_cons_of_mem _ hjh) hjo

theorem sysInv_step (s s' : SysState) (op : Op) (hinv : SysInv s)
    (h : stepOk s op = some s') : SysInv s' := by
  rw [stepOk] at h
  by_cases hok : OkB op s = true
  · rw [if_pos hok] at h
    cases op with
    | opInject id w =>
      simp only [OkB, List.contains, Bool.and_eq_true, Bool.not_eq_true', List.elem_eq_mem,
        decide_eq_false_iff_not, decide_eq_true_eq] at hok
      exact sysInv_inject s s' id w hinv hok.1.1.1 hok.1.1.2 hok.1.2 hok.2 h
    | opInsert id now =>
      simp only [OkB, List.contains, Bool.and_eq_true, Bool.not_eq_true', List.elem_eq_mem,
        decide_eq_false_iff_not, decide_eq_true_eq] at hok
      exact sysInv_insert s s' id now hinv hok.1.1.1 hok.1.1.2 hok.1.2 hok.2 h
    | opTouch id lockok =>
      simp only [applyOp] at h
      obtain rfl := Option.some_inj.mp h
      exact sysInv_touch s id lockok hinv
    | opRearm id =>
      exact sysInv_rearm s s' id hinv h
    | opSetExp id e =>
      simp only [applyOp] at h
      obtain rfl := Option.some_inj.mp h
      exact sysInv_setExp s id e hinv
    | opNuke ohlock =>
      exact sysInv_nuke s s' ohlock hinv h
    | opActor now =>
      cases hq : s.inbox with
      | nil =>
        simp only [applyOp, exp_thread_step, hq] at h
        obtain rfl := Option.some_inj.mp h
        exact sysInv_expire s now hinv
      | cons id rest =>
        simp only [applyOp, exp_thread_step, hq] at h
        exact sysInv_drain s s' id rest now hq hinv h
  · rw [if_neg hok] at h
    cases h

theorem sysInv_run : ∀ ops s s2, SysInv s → runFrom s ops = some s2 → SysInv s2 := by
  intro ops
  induction ops with
  | nil =>
    intro s s2 h1 h2
    rw [runFrom] at h2
    obtain rfl := Option.some_inj.mp h2
    exact h1
  | cons op rest ih =>
    intro s s2 h1 h2
    rw [runFrom] at h2
    cases hs : stepOk s op with
    | none => rw [hs] at h2; cases h2
    | some s1 =>
      rw [hs] at h2
      exact ih s1 s2 (sysInv_step s s1 op h1 hs) h2

/-- Counterexample to claim C8: the reachable interleaving c8ops (inject,
then rearm before the actor drains the INSERT mail) leaves objcore 0 in the
mailbox with INSERT and MOVE set simultaneously, so a mailbox resident does
not have exactly one of INSERT, MOVE, DYING. -/
theorem C8_counterexample :
    (runFrom initState c8ops).map
      (fun s => (s.inbox, (s.ocs 0).offlru, (s.ocs 0).insert, (s.ocs 0).move)) =
    some ([0], true, true, true) := by
  have hmid : runFrom initState c8ops = runFrom c8mid [Op.opRearm 0] := by rfl
  have hne : (c8mid.ocs 0).timer_when ≠ exp_when (c8mid.exps 0) := by
    norm_num [c8mid, initState, oc0, exp_when, c8exp, updFn]
  have ho : (c8mid.ocs 0).offlru = true := by decide
  have hw : ¬(exp_when (c8mid.exps 0) < 0) := by
    norm_num [c8mid, initState, exp_when, c8exp, updFn]
  have hrearm := EXP_Rearm_eq_off c8mid 0 hne ho
  rw [if_neg hw] at hrearm
  have hstep : stepOk c8mid (Op.opRearm 0) =
      some { c8mid with ocs := updFn c8mid.ocs 0 { c8mid.ocs 0 with move := true } } := by
    rw [show stepOk c8mid (Op.opRearm 0) = EXP_Rearm c8mid 0 from rfl, hrearm]
  rw [hmid, runFrom, hstep]
  rfl

/-- Claim C8 as amended: in every state reachable by contract-respecting
interleavings of the public operations and actor steps, every objcore
resident in the mailbox has OFFLRU set and at least one of INSERT, MOVE,
DYING set; INSERT and MOVE can however be set simultaneously when a Rearm
overlaps a pending INSERT mail. -/
theorem C8_mailbox_invariant (ops : List Op) (s : SysState)
    (h : runFrom initState ops = some s) : MailboxInv s :=
  (sysInv_run ops initState s sysInv_init h).mbox

/-- Witness for C8 as amended, at the state with one pending INSERT mail. -/
theorem C8_witness : MailboxInv c8wstate :=
  C8_mailbox_invariant [Op.opInject 0 5] c8wstate (by rfl)

/-- From any reachable quiescent state (empty inbox, no BUSY objcore in the
heap) the actor can be scheduled so that any given heap resident is expired
and its actor reference dropped exactly once more. -/
theorem heap_drain (n : Nat) : ∀ s, SysInv s → s.heap.length = n → s.inbox = [] →
    (∀ j ∈ s.heap, (s.ocs j).busy = false) →
    ∀ id ∈ s.heap, ∃ more s2, runFrom s more = some s2 ∧ s2.rel id = s.rel id + 1 := by
  induction n with
  | zero =>
    intro s _ hlen _ _ id hmem
    rw [List.length_eq_zero] at hlen
    rw [hlen] at hmem
    cases hmem
  | succ n ih =>
    intro s hinv hlen hq hbusy id hmem
    cases hh : s.heap with
    | nil =>
      rw [hh] at hmem
      cases hmem
    | cons j0 rest =>
      have hb0 : (s.ocs j0).busy = false := hbusy j0 (hh ▸ List.mem_cons_self j0 rest)
      have ho0 : (s.ocs j0).offlru = false := by
        cases hv : (s.ocs j0).offlru
        · rfl
        · have := hinv.offHeapInbox j0 (hh ▸ List.mem_cons_self j0 rest) hv
          rw [hq] at this
          cases this
      have hfire := exp_expire_eq_fire s ((s.ocs j0).timer_when) j0 rest hh
        (le_refl _) hb0 ho0
      have hs1 : (exp_expire s ((s.ocs j0).timer_when)).1 =
          { s with n_expired := s.n_expired + 1,
                   ocs := updFn s.ocs j0
                     { s.ocs j0 with dying := true, offlru := true,
                                     refcnt := (s.ocs j0).refcnt - 1 },
                   lru := { s.lru with list := s.lru.list.erase j0 },
                   heap := rest,
                   rel := updFn s.rel j0 (s.rel j0 + 1) } := by
        rw [hfire]
      have hstep : stepOk s (Op.opActor ((s.ocs j0).timer_when)) =
          some (exp_expire s ((s.ocs j0).timer_when)).1 := by
        simp [stepOk, OkB, applyOp, exp_thread_step, hq]
      have hinv1 := sysInv_step _ _ _ hinv hstep
      have hKrest : j0 ∉ rest ∧ rest.Nodup := by
        have := hinv.heapNodup
        rw [hh] at this
        exact List.nodup_cons.mp this
      by_cases hji : id = j0
      · subst hji
        refine ⟨[Op.opActor ((s.ocs id).timer_when)],
          (exp_expire s ((s.ocs id).timer_when)).1, ?_, ?_⟩
        · rw [runFrom, hstep]
          rfl
        · rw [hs1]
          dsimp only
          rw [updFn_same]
      · obtain ⟨more, s2, hrun, hrel⟩ := ih (exp_expire s ((s.ocs j0).timer_when)).1 hinv1
          (by rw [hs1]; dsimp only; rw [hh] at hlen; exact Nat.succ_injective hlen)
          (by rw [hs1]; exact hq)
          (by
            rw [hs1]
            dsimp only
            intro j hj
            have hjj0 : j ≠ j0 := fun hqe => hKrest.1 (hqe ▸ hj)
            rw [updFn_other _ _ _ _ hjj0]
            exact hbusy j (hh ▸ List.mem_cons_of_mem _ hj))
          id
          (by rw [hs1]; dsimp only; exact (List.mem_cons.mp (hh ▸ hmem)).resolve_left hji)
        refine ⟨Op.opActor ((s.ocs j0).timer_when) :: more, s2, ?_, ?_⟩
        · rw [runFrom, hstep]
          exact hrun
        · rw [hrel, hs1]
          dsimp only
          rw [updFn_other _ _ _ _ hji]

/-- Claim C9: reference balance.  In every reachable state the actor has
released at most what it acquired and acquired at most once per objcore; a
heap-resident objcore carries exactly one not-yet-released actor reference;
once an objcore that was inserted is out of the heap with no pending INSERT
mail, the actor has released its reference exactly once (so never twice);
and from any quiescent reachable state every heap resident can be driven by
actor steps to the point where that single release has happened (no
reference is kept forever). -/
theorem C9_reference_balance (ops : List Op) (s : SysState)
    (h : runFrom initState ops = some s) :
    (∀ id, s.rel id ≤ s.acq id ∧ s.acq id ≤ 1) ∧
    (∀ id, id ∈ s.heap → s.rel id = 0 ∧ s.acq id = 1) ∧
    (∀ id, s.acq id = 1 → id ∉ s.heap →
      ¬(id ∈ s.inbox ∧ (s.ocs id).insert = true) → s.rel id = 1) ∧
    (s.inbox = [] → (∀ j ∈ s.heap, (s.ocs j).busy = false) →
      ∀ id ∈ s.heap, ∃ more s2, runFrom s more = some s2 ∧ s2.rel id = 1) := by
  have hinv := sysInv_run ops initState s sysInv_init h
  refine ⟨?_, ?_, ?_, ?_⟩
  · intro id
    have hE := hinv.bal id
    have hH := hinv.acqLe id
    omega
  · intro id hmem
    have hE := hinv.bal id
    have hH := hinv.acqLe id
    rw [refBal, if_pos hmem] at hE
    exact ⟨by omega, by omega⟩
  · intro id ha hnh hni
    have hE := hinv.bal id
    rw [refBal, if_neg hni, if_neg hnh] at hE
    omega
  · intro hq hbusy id hmem
    obtain ⟨more, s2, hrun, hrel⟩ :=
      heap_drain s.heap.length s hinv rfl hq hbusy id hmem
    have hrel0 : s.rel id = 0 := by
      have hE := hinv.bal id
      have hH := hinv.acqLe id
      rw [refBal, if_pos hmem] at hE
      omega
    exact ⟨more, s2, hrun, by rw [hrel, hrel0]⟩

/-- Witness for C9: the full inject-drain-expire lifecycle c9ops, at whose
end the reference-balance properties are asserted of the reached state. -/
theorem C9_witness :
    (∀ id, c9state.rel id ≤ c9state.acq id ∧ c9state.acq id ≤ 1) ∧
    (∀ id, id ∈ c9state.heap → c9state.rel id = 0 ∧ c9state.acq id = 1) ∧
    (∀ id, c9state.acq id = 1 → id ∉ c9state.heap →
      ¬(id ∈ c9state.inbox ∧ (c9state.ocs id).insert = true) → c9state.rel id = 1) ∧
    (c9state.inbox = [] → (∀ j ∈ c9state.heap, (c9state.ocs j).busy = false) →
      ∀ id ∈ c9state.heap, ∃ more s2, runFrom c9state more = some s2 ∧ s2.rel id = 1) :=
  C9_reference_balance c9ops c9state (by rfl)
